import Mathlib

/-!
Shallow embedding of `src/main.py`, a sequential e-commerce catalog
crawler, together with theorems settling the specification claims.

Modelling conventions:
* Fetched pages are represented by the structure `Html`, which records
  exactly the observations the code makes of a page: the text of the
  first `h1`, the texts of the pagination controls, the product
  elements of the goods block, the description text, the gallery image
  element, and the embedded `items_v` script blob.  The page-fetch
  transport (`makeRequest`) is an external collaborator and is passed
  in as a function `String → Option Html`; `none` covers both a
  network failure and an empty (falsy) body.
* Python strings are Lean `String`s; the handful of library string
  operations used by the code (`split`, `replace`, `strip`, `title`,
  `int`, `urljoin`) are re-implemented structurally over `String.data`
  so that every definition evaluates by kernel reduction.
* Python `dict` (string keys, insertion-ordered, last assignment wins,
  `list(d.values())` in insertion order) is modelled by an association
  list with in-place update and append-on-new-key.
* Fallible code returns `Option`/`Except`; an `Except.error` models an
  exception propagating out of the translated function.
-/

/-- Decidable equality for `Except`, to evaluate the embedded fallible
    functions on concrete inputs. -/
instance {ε α : Type} [DecidableEq ε] [DecidableEq α] : DecidableEq (Except ε α) := fun a b =>
  match a, b with
  | .ok x, .ok y => decidable_of_iff (x = y) ⟨congrArg Except.ok, Except.ok.inj⟩
  | .error x, .error y => decidable_of_iff (x = y) ⟨congrArg Except.error, Except.error.inj⟩
  | .ok _, .error _ => isFalse (fun hc => Except.noConfusion hc)
  | .error _, .ok _ => isFalse (fun hc => Except.noConfusion hc)

/-- Python truthiness of an optional string: `None` and `""` are falsy. -/
def pyTruthy : Option String → Bool
  | none => false
  | some s => s ≠ ""

/-- Characters stripped by Python `str.strip()` (ASCII whitespace). -/
def isPySpace (c : Char) : Bool :=
  c = ' ' || c = '\t' || c = '\n' || c = '\r' || c = '\x0b' || c = '\x0c'

/-- Model of Python `str.strip()`: drop leading and trailing whitespace. -/
def pyStrip (s : String) : String :=
  ⟨((s.data.dropWhile isPySpace).reverse.dropWhile isPySpace).reverse⟩

/-- Split a character list at every occurrence of `sep`, keeping empty
    groups, as Python `str.split(sep)` does for a one-character separator. -/
def splitOnChar (sep : Char) : List Char → List (List Char)
  | [] => [[]]
  | c :: cs =>
    match splitOnChar sep cs with
    | [] => if c = sep then [[], []] else [[c]]
    | g :: gs => if c = sep then [] :: g :: gs else (c :: g) :: gs

/-- Model of Python `url.split("/")` (the separator is a single character). -/
def pySplitSlash (s : String) : List String :=
  (splitOnChar '/' s.data).map (fun l => ⟨l⟩)

/-- Model of Python `str.replace(a, b)` for one-character `a` and `b`. -/
def replaceCharStr (a b : Char) (s : String) : String :=
  ⟨s.data.map (fun c => if c = a then b else c)⟩

/-- Helper for `pyTitle`: the boolean records whether the previous
    character was cased. -/
def pyTitleAux : Bool → List Char → List Char
  | _, [] => []
  | prevCased, c :: cs =>
    if c.isAlpha then
      (if prevCased then c.toLower else c.toUpper) :: pyTitleAux true cs
    else
      c :: pyTitleAux false cs

/-- Model of Python `str.title()`: each maximal run of letters starts
    with an uppercase letter, the rest lowercased.  (Modelled for
    alphabetic characters; the URLs in the program are ASCII slugs.) -/
def pyTitle (s : String) : String :=
  ⟨pyTitleAux false s.data⟩

/-- Digit-run part of Python `int(str)`: digits with single underscores
    allowed between digits. -/
def pyIntLoop : Nat → List Char → Option Nat
  | acc, [] => some acc
  | acc, c :: cs =>
    if c.isDigit then pyIntLoop (acc * 10 + (c.toNat - 48)) cs
    else if c = '_' then
      match cs with
      | [] => none
      | d :: rest =>
        if d.isDigit then pyIntLoop (acc * 10 + (d.toNat - 48)) rest else none
    else none

/-- Unsigned part of Python `int(str)`: must start with a digit. -/
def pyIntCore : List Char → Option Nat
  | [] => none
  | c :: cs => if c.isDigit then pyIntLoop (c.toNat - 48) cs else none

/-- Model of Python `int(str)` returning `none` where Python raises
    `ValueError`: strip whitespace, optional sign, ASCII decimal digits. -/
def pyInt (s : String) : Option Int :=
  match (pyStrip s).data with
  | [] => none
  | c :: cs =>
    if c = '-' then (pyIntCore cs).map (fun n => -(n : Int))
    else if c = '+' then (pyIntCore cs).map (fun n => (n : Int))
    else (pyIntCore (c :: cs)).map (fun n => (n : Int))

/-- Structural test that a string starts with the character `c`. -/
def startsWithChar (c : Char) (s : String) : Bool :=
  match s.data with
  | a :: _ => a = c
  | [] => false

/-- Structural test that a string starts with two slashes. -/
def startsWithSlashSlash (s : String) : Bool :=
  match s.data with
  | a :: b :: _ => a = '/' && b = '/'
  | _ => false

/-- Split a character list at its first colon: `some (before, after)`. -/
def splitAtColon : List Char → Option (List Char × List Char)
  | [] => none
  | c :: cs =>
    if c = ':' then some ([], cs)
    else (splitAtColon cs).map (fun p => (c :: p.1, p.2))

/-- Valid characters of a URL scheme after the leading letter. -/
def isSchemeChar (c : Char) : Bool :=
  c.isAlphanum || c = '+' || c = '-' || c = '.'

/-- Lowercase a string character by character (ASCII). -/
def lowerStr (s : String) : String :=
  ⟨s.data.map Char.toLower⟩

/-- Validity of a URL scheme: a leading letter followed by scheme
    characters. -/
def validScheme : List Char → Bool
  | [] => false
  | c :: rest => c.isAlpha && rest.all isSchemeChar

/-- Model of scheme detection in `urllib.parse`: `some (scheme, rest)`
    when the string starts with `letter (letter|digit|+|-|.)* ":"`. -/
def schemeSplit (url : String) : Option (String × String) :=
  match splitAtColon url.data with
  | none => none
  | some (pre, post) =>
    if validScheme pre then some (⟨pre⟩, ⟨post⟩) else none

/-- A URL is absolute when it carries a scheme. -/
def isAbsoluteUrl (s : String) : Bool :=
  (schemeSplit s).isSome

/-- Prefix of a character list up to and including its last slash
    (empty if there is no slash). -/
def upToLastSlash : List Char → List Char
  | [] => []
  | c :: rest =>
    match upToLastSlash rest with
    | [] => if c = '/' then ['/'] else []
    | r => c :: r

/-- Scheme of an absolute base URL, lowercased (`"https"` for the
    program's fixed base). -/
def baseScheme (base : String) : String :=
  match schemeSplit base with
  | none => ""
  | some p => lowerStr p.1

/-- Origin (`scheme "://" netloc`) of an absolute base URL. -/
def baseOrigin (base : String) : String :=
  match schemeSplit base with
  | none => base
  | some (sch, rest) =>
    match rest.data with
    | '/' :: '/' :: after =>
      lowerStr sch ++ "://" ++ ⟨after.takeWhile (fun c => c ≠ '/')⟩
    | _ => base

/-- Directory prefix of an absolute base URL: origin plus the path up
    to and including its last slash (the RFC 3986 merge base).  For a
    base with an empty path the merge base is `"/"`. -/
def baseDir (base : String) : String :=
  match schemeSplit base with
  | none => base
  | some (_, rest) =>
    match rest.data with
    | '/' :: '/' :: after =>
      let path := after.dropWhile (fun c => c ≠ '/')
      match upToLastSlash path with
      | [] => baseOrigin base ++ "/"
      | d => baseOrigin base ++ ⟨d⟩
    | _ => base

/-- Model of `urllib.parse.urljoin(base, url)` for an absolute http(s)
    `base`, as called by the program with `base = BASE_URL`.  A
    reference carrying a foreign scheme is returned verbatim; one
    carrying the base's scheme is resolved like a schemeless reference;
    dot-segment normalization of relative paths is omitted (it never
    affects the scheme or authority of the result). -/
def urljoin (base url : String) : String :=
  if url = "" then base
  else
    match schemeSplit url with
    | some (sch, rest) =>
      if lowerStr sch = baseScheme base then
        if rest = "" then base
        else if startsWithSlashSlash rest then baseScheme base ++ ":" ++ rest
        else if startsWithChar '/' rest then baseOrigin base ++ rest
        else baseDir base ++ rest
      else url
    | none =>
      if startsWithSlashSlash url then baseScheme base ++ ":" ++ url
      else if startsWithChar '/' url then baseOrigin base ++ url
      else baseDir base ++ url

/-! ## Data model of observed pages -/

/-- A raw variant dictionary as decoded from the embedded `items_v`
    blob; the code reads the keys `art`, `mass` and `price` with
    `dict.get(k, None)`.  Numeric JSON values are modelled as `Int`. -/
structure RawVariant where
  art : Option String
  mass : Option String
  price : Option Int
deriving DecidableEq, Repr

/-- The decoded `items_v` mapping: product identifier to raw variant
    list.  `json.loads` produces unique keys; the association list is
    read with first-match lookup. -/
abbrev ItemsData := List (String × List RawVariant)

/-- Association-list lookup with decidable string equality, modelling
    Python `k in d` / `d[k]`. -/
def alookup {α : Type} (k : String) : List (String × α) → Option α
  | [] => none
  | (k', v) :: rest => if k' = k then some v else alookup k rest

/-- The first `<a>` descendant of a product element, as seen through
    `select_one("a")` and `Tag.get("href")`. -/
structure AElem where
  href : Option String
deriving DecidableEq, Repr

/-- The first `<img>` descendant of a product element, as seen through
    `select_one("img")` and `Tag.get("id")`. -/
structure ImgElem where
  id : Option String
deriving DecidableEq, Repr

/-- One element of `soup.select(".goodsBlock .goods")`, recording the
    observations the loop body makes of it. -/
structure ProductElement where
  firstA : Option AElem
  firstImg : Option ImgElem
deriving DecidableEq, Repr

/-- A parsed page, recording exactly the observations the code makes:
    `h1` is the text of `select_one("h1")` (`none` when the element is
    missing); `paginationLabels` the texts of
    `select(".yiiPager .page")`; `goods` the elements of
    `select(".goodsBlock .goods")`; `descriptionText` the text of
    `select_one("[itemprop=description]")`; `galleryImgSrc` the
    `select_one(".eslider-main-img")` element (`none` = absent,
    `some a` = present with `src` attribute `a`); `itemsV` the result
    of the `items_v` regex search (`none` = no match, `some none` =
    matched but `json.loads` raises `JSONDecodeError`, `some (some d)`
    = matched and decoded to `d`). -/
structure Html where
  h1 : Option String
  paginationLabels : List String
  goods : List ProductElement
  descriptionText : Option String
  galleryImgSrc : Option (Option String)
  itemsV : Option (Option ItemsData)
deriving DecidableEq, Repr

/-- The fetch port `makeRequest`: `none` models a request failure or an
    empty (falsy) body, `some page` a fetched page as parsed by
    BeautifulSoup. -/
abbrev Fetch := String → Option Html

/-! ## Configuration constants from the source -/

/-- Fixed site base origin (`BASE_URL` in the source). -/
def BASE_URL : String := "https://www.zveromir.ru/"

/-- Configured category URLs (`CATEGORIES` in the source). -/
def CATEGORIES : List String :=
  ["https://www.zveromir.ru/shop/perenoski_dlya_sobak/",
   "https://www.zveromir.ru/shop/suhoy_korm_dlya_koshek/",
   "https://www.zveromir.ru/shop/furminatori/"]

/-! ## analyzeCategoryPage -/

/-- Model of `url.split("/")[-2].replace("_", " ").title()`, the
    URL-derived category name.  Indexing `[-2]` raises `IndexError`
    when the split has fewer than two parts (i.e. the URL contains no
    slash); the error is the name of the Python exception. -/
def urlDerivedName (url : String) : Except String String :=
  let parts := pySplitSlash url
  if h : 2 ≤ parts.length then
    .ok (pyTitle (replaceCharStr '_' ' ' (parts.get ⟨parts.length - 2, by omega⟩)))
  else
    .error "IndexError"

/-- Model of `analyzeCategoryPage`: returns the category name and page
    count, or `Except.error` when an exception escapes to the caller.
    The body is the `try` block; a body error is caught by the
    `except` clause, whose own fallback expression re-evaluates the
    URL-derived name and can itself raise. -/
def analyzeCategoryPage (fetch : Fetch) (url : String) : Except String (String × Int) :=
  let body : Except String (String × Int) :=
    match fetch url with
    | none => (urlDerivedName url).map (fun n => (n, 1))
    | some pg =>
      let nameRes : Except String String :=
        match pg.h1 with
        | some t => .ok t
        | none => urlDerivedName url
      match nameRes with
      | .error e => .error e
      | .ok categoryName =>
        let pagesCount : Int :=
          if pg.paginationLabels.isEmpty then 1
          else
            match (pg.paginationLabels.filterMap pyInt).max? with
            | some m => m
            | none => 1
        .ok (categoryName, pagesCount)
  match body with
  | .ok r => .ok r
  | .error _ => (urlDerivedName url).map (fun n => (n, 1))

/-! ## extractItemsData, extractProductId, extractProductVariants -/

/-- Model of `extractItemsData`: `none` input models falsy `html`; a
    missing regex match or a JSON decode failure yields the empty
    mapping (the decode error is caught and logged, never propagated). -/
def extractItemsData (html : Option Html) : ItemsData :=
  match html with
  | none => []
  | some pg =>
    match pg.itemsV with
    | none => []
    | some none => []
    | some (some d) => d

/-- Model of `extractProductId`: the `id` attribute of the product
    element's first `<img>`, with its first character stripped; `none`
    when the element or a truthy attribute is missing.  (A present
    `Tag` is always truthy in BeautifulSoup.) -/
def extractProductId (productElement : ProductElement) : Option String :=
  match productElement.firstImg with
  | none => none
  | some img =>
    match img.id with
    | none => none
    | some s => if s = "" then none else some ⟨s.data.drop 1⟩

/-- Model of `extractProductVariants`: empty for a falsy or unknown
    identifier; otherwise one entry per raw entry, in source order,
    with `article`, `mass`, `price` taken from the raw fields. -/
structure Variant where
  article : Option String
  mass : Option String
  price : Option Int
deriving DecidableEq, Repr

/-- Conversion of one raw embedded entry to a variant record, as built
    by the loop body of `extractProductVariants`. -/
def mkVariant (v : RawVariant) : Variant :=
  { article := v.art, mass := v.mass, price := v.price }

/-- Model of `extractProductVariants` (the identifier argument is
    `Option String` since Python may pass `None`). -/
def extractProductVariants (itemsData : ItemsData) (productId : Option String) : List Variant :=
  match productId with
  | none => []
  | some pid =>
    if pid = "" then []
    else
      match alookup pid itemsData with
      | none => []
      | some raws => raws.map mkVariant

/-! ## getProductsInfoFromCatalog -/

/-- One entry of the `productsInfo` dict: the stub built for a product
    identifier (`url`, `product_id`, `variants` as in the source). -/
structure StubInfo where
  url : String
  product_id : String
  variants : List Variant
deriving DecidableEq, Repr

/-- The `productsInfo` Python dict: insertion-ordered association list
    with unique keys. -/
abbrev PDict := List (String × StubInfo)

/-- Python `key in dict`. -/
def dictMem (k : String) (d : PDict) : Bool :=
  (alookup k d).isSome

/-- Python `dict[k] = v`: update the existing entry in place, else
    append, preserving insertion order. -/
def dictSet (k : String) (v : StubInfo) : PDict → PDict
  | [] => [(k, v)]
  | (k', v') :: rest =>
    if k' = k then (k, v) :: rest else (k', v') :: dictSet k v rest

/-- Python `dict[k]["variants"] = vs`: overwrite the variants of the
    entry stored under `k`, leaving its other fields in place. -/
def dictUpdateVariants (k : String) (vs : List Variant) : PDict → PDict
  | [] => []
  | (k', v') :: rest =>
    if k' = k then (k', { v' with variants := vs }) :: rest
    else (k', v') :: dictUpdateVariants k vs rest

/-- The loop body of `getProductsInfoFromCatalog` for one product
    element: skip on a missing/falsy link `href`, resolve the absolute
    URL, skip on a falsy identifier, insert the stub if the identifier
    is new, then overwrite its variants from the embedded data. -/
def processProduct (itemsData : ItemsData) (d : PDict) (product : ProductElement) : PDict :=
  match product.firstA with
  | none => d
  | some a =>
    match a.href with
    | none => d
    | some href =>
      if href = "" then d
      else
        let fullUrl := urljoin BASE_URL href
        match extractProductId product with
        | none => d
        | some productId =>
          if productId = "" then d
          else
            let d1 :=
              if dictMem productId d then d
              else dictSet productId ⟨fullUrl, productId, []⟩ d
            dictUpdateVariants productId
              (extractProductVariants itemsData (some productId)) d1

/-- The per-page body of `getProductsInfoFromCatalog` once the page is
    fetched: run the loop over the goods elements and return the dict
    values in insertion order. -/
def extractStubs (pg : Html) : List StubInfo :=
  let itemsData := extractItemsData (some pg)
  (pg.goods.foldl (processProduct itemsData) []).map Prod.snd

/-- Page address used by `getProductsInfoFromCatalog`: the category
    base URL for page 1, with a `page/N/` suffix for later pages. -/
def catalogPageUrl (categoryUrl : String) (page : Int) : String :=
  if page > 1 then categoryUrl ++ "page/" ++ toString page ++ "/" else categoryUrl

/-- Model of `getProductsInfoFromCatalog`: empty on fetch failure,
    otherwise the stub list of the fetched page.  (In the embedding
    the `try` body is total, so the `except` branch returning `[]` is
    unreachable.) -/
def getProductsInfoFromCatalog (fetch : Fetch) (categoryUrl : String) (page : Int) : List StubInfo :=
  match fetch (catalogPageUrl categoryUrl page) with
  | none => []
  | some pg => extractStubs pg

/-! ## parseProduct -/

/-- A finished product record as returned by `parseProduct`. -/
structure ProductRecord where
  url : String
  name : Option String
  description : Option String
  image : Option String
  variants : List Variant
deriving DecidableEq, Repr

/-- The non-breaking-space character normalized by `parseProduct`. -/
def nbspChar : Char := Char.ofNat 160

/-- Model of `parseProduct`: `none` models the `except` clause
    (implicitly returning `None`), reached on a fetch failure (the
    raised `ValueError`) or on the `AttributeError` from
    `imageElement.get("src").strip()` when the gallery element is
    present without a `src` attribute. -/
def parseProduct (fetch : Fetch) (productInfo : StubInfo) : Option ProductRecord :=
  let url := productInfo.url
  let variants := productInfo.variants
  match fetch url with
  | none => none
  | some pg =>
    let name := pg.h1
    let description := pg.descriptionText.map (replaceCharStr nbspChar ' ')
    match pg.galleryImgSrc with
    | none =>
      some { url := url, name := name, description := description,
             image := none, variants := variants }
    | some none => none
    | some (some src) =>
      some { url := url, name := name, description := description,
             image := some (urljoin BASE_URL (pyStrip src)), variants := variants }

/-! ## parseShop (orchestrator) -/

/-- One category of the persisted result (`name` and `goods`). -/
structure CategoryData where
  name : String
  goods : List ProductRecord
deriving DecidableEq, Repr

/-- Python `range(1, pagesCount + 1)` over the (possibly non-positive)
    page count. -/
def pageRange (pagesCount : Int) : List Int :=
  (List.range pagesCount.toNat).map (fun i => (i : Int) + 1)

/-- The per-category body of `parseShop`: analyze the category (an
    escaping exception is the `Except.error` case, caught by the
    per-category handler), then for each page collect the stubs and
    keep exactly the products whose detail parse produced a record. -/
def parseCategory (fetch : Fetch) (categoryUrl : String) : Except String CategoryData :=
  match analyzeCategoryPage fetch categoryUrl with
  | .error e => .error e
  | .ok (categoryName, pagesCount) =>
    let goods := (pageRange pagesCount).flatMap
      (fun page => (getProductsInfoFromCatalog fetch categoryUrl page).filterMap
        (parseProduct fetch))
    .ok { name := categoryName, goods := goods }

/-- Model of `parseShop` up to the final save: a failing category is
    logged and omitted from the result. -/
def parseShop (fetch : Fetch) : List CategoryData :=
  CATEGORIES.foldl
    (fun result categoryUrl =>
      match parseCategory fetch categoryUrl with
      | .ok c => result ++ [c]
      | .error _ => result)
    []

/-! ## saveToJsonFile -/

/-- Outcome of the file-system operations underlying one save: the
    `open` call may fail before touching the file, the streamed write
    may fail after some prefix has reached the file, or everything
    succeeds. -/
inductive SinkOutcome where
  | openFail
  | writeFail (n : Nat)
  | success
deriving DecidableEq, Repr

/-- Model of `saveToJsonFile`: `prev` is the previous content of
    `shop_data.json`, `serialized` the text `json.dump(data, f,
    ensure_ascii=False, indent=2)` streams for this run's data.
    `open(..., "w")` truncates the file as soon as it succeeds and
    `json.dump` writes incrementally, so a write failure leaves the
    prefix written so far; every exception is caught and logged.  The
    result is the file's content after the call. -/
def saveToJsonFile (prev serialized : String) (oc : SinkOutcome) : String :=
  match oc with
  | .openFail => prev
  | .writeFail n => ⟨serialized.data.take n⟩
  | .success => serialized

/-! ## Derived specification-side notions -/

/-- The identifier and raw link `href` a product element contributes in
    the `getProductsInfoFromCatalog` loop, `none` when one of the
    loop's guards skips the element (missing or falsy link `href`,
    missing or falsy recovered identifier). -/
def qual (e : ProductElement) : Option (String × String) :=
  match e.firstA with
  | none => none
  | some a =>
    match a.href with
    | none => none
    | some href =>
      if href = "" then none
      else
        match extractProductId e with
        | none => none
        | some pid => if pid = "" then none else some (pid, href)

/-- The identifier a product element contributes, if any. -/
def qualPid (e : ProductElement) : Option String :=
  (qual e).map Prod.fst

/-- The (identifier, href) pairs contributed by a list of product
    elements, in page order; `alookup` on this list yields the href of
    an identifier's first occurrence. -/
def qualList (l : List ProductElement) : List (String × String) :=
  l.filterMap qual

/-- Invariant of the `productsInfo` dict after the loop has processed
    the elements `hist`: keys are unique, each entry's `product_id`
    equals its key and is non-empty, its `url` is resolved from the
    first occurrence's href, its `variants` come from the embedded
    data keyed by the identifier, and the keys are exactly the
    identifiers contributed by `hist`. -/
def DictInv (items : ItemsData) (hist : List ProductElement) (d : PDict) : Prop :=
  (d.map Prod.fst).Nodup ∧
  (∀ p ∈ d, p.2.product_id = p.1 ∧ p.1 ≠ "" ∧
    (∃ h, alookup p.1 (qualList hist) = some h ∧ p.2.url = urljoin BASE_URL h) ∧
    p.2.variants = extractProductVariants items (some p.1)) ∧
  (∀ k : String, k ∈ d.map Prod.fst ↔ ∃ e ∈ hist, qualPid e = some k)

/-! ## Concrete fixtures for closed evaluations -/

/-- Embedded data mapping used by the fixtures. -/
def egItems : ItemsData :=
  [("p1", [{ art := some "a77", mass := some "2kg", price := some 1290 }])]

/-- A qualifying product element for identifier `p1`. -/
def egElemDup1 : ProductElement :=
  { firstA := some { href := some "/shop/p1/" }, firstImg := some { id := some "gp1" } }

/-- A second qualifying element for the same identifier `p1`, with a
    different link. -/
def egElemDup2 : ProductElement :=
  { firstA := some { href := some "/shop/p1-again/" }, firstImg := some { id := some "gp1" } }

/-- An element whose link has no `href` attribute. -/
def egElemNoHref : ProductElement :=
  { firstA := some { href := none }, firstImg := some { id := some "gp2" } }

/-- An element whose image `id` attribute becomes empty after its first
    character is stripped. -/
def egElemShortId : ProductElement :=
  { firstA := some { href := some "/shop/p3/" }, firstImg := some { id := some "g" } }

/-- A catalog page with a duplicated identifier and two skipped
    elements. -/
def egCatalogPage : Html :=
  { h1 := some "Category", paginationLabels := ["1", "2", "3", "…"],
    goods := [egElemDup1, egElemNoHref, egElemShortId, egElemDup2],
    descriptionText := none, galleryImgSrc := none,
    itemsV := some (some egItems) }

/-- The catalog page with its embedded blob made syntactically
    malformed (the JSON decode fails). -/
def egBadBlobPage : Html :=
  { egCatalogPage with itemsV := some none }

/-- A product detail page with no description element. -/
def egDetailPage : Html :=
  { h1 := some "Prod", paginationLabels := [], goods := [],
    descriptionText := none, galleryImgSrc := some (some " /img/p.png "),
    itemsV := none }

/-- A detail page whose gallery image element is present but has no
    `src` attribute. -/
def egDetailNoSrc : Html :=
  { egDetailPage with galleryImgSrc := some none }

/-- Fetch port serving the catalog page, one product detail page, and
    one detail page without an image `src`. -/
def egFetchFull : Fetch := fun u =>
  if u = "https://www.zveromir.ru/shop/cat/" then some egCatalogPage
  else if u = "https://www.zveromir.ru/shop/p1/" then some egDetailPage
  else if u = "https://www.zveromir.ru/nosrc/" then some egDetailNoSrc
  else none

/-- Fetch port serving the catalog page with the malformed blob. -/
def egFetchBad : Fetch := fun u =>
  if u = "https://www.zveromir.ru/shop/cat/" then some egBadBlobPage else none

/-- The variant decoded from the fixture embedded data. -/
def egVariant : Variant :=
  { article := some "a77", mass := some "2kg", price := some 1290 }

/-- The product record the fixture detail page yields for the `p1`
    stub. -/
def egRecord : ProductRecord :=
  { url := "https://www.zveromir.ru/shop/p1/", name := some "Prod",
    description := none, image := some "https://www.zveromir.ru/img/p.png",
    variants := [egVariant] }

/-- The category data the orchestrator assembles from the fixtures. -/
def egCatData : CategoryData :=
  { name := "Category", goods := [egRecord] }

/-! ## Lemmas: URL absoluteness -/

/-- Character data of a string concatenation. -/
theorem strDataAppend (s t : String) : (s ++ t).data = s.data ++ t.data := by
  cases s; cases t; rfl

/-- Splitting at the first colon is stable under appending characters
    after a split has already been found. -/
theorem splitAtColon_append (l₂ : List Char) :
    ∀ (l₁ pre post : List Char), splitAtColon l₁ = some (pre, post) →
      splitAtColon (l₁ ++ l₂) = some (pre, post ++ l₂) := by
  intro l₁
  induction l₁ with
  | nil => intro pre post h; simp [splitAtColon] at h
  | cons c cs ih =>
    intro pre post h
    by_cases hc : c = ':'
    · subst hc
      simp [splitAtColon] at h
      obtain ⟨h1, h2⟩ := h
      subst h1; subst h2
      simp [splitAtColon]
    · rw [show splitAtColon (c :: cs) =
            (splitAtColon cs).map (fun p => (c :: p.1, p.2)) from by
          simp [splitAtColon, hc]] at h
      rcases hs : splitAtColon cs with _ | ⟨q1, q2⟩
      · rw [hs] at h; simp at h
      · rw [hs] at h
        simp only [Option.map_some', Option.some.injEq, Prod.mk.injEq] at h
        obtain ⟨h1, h2⟩ := h
        subst h1; subst h2
        rw [List.cons_append]
        simp [splitAtColon, hc, ih q1 q2 hs]

/-- A string with a detected scheme keeps it under concatenation on
    the right. -/
theorem schemeSplit_isSome_append (s t : String) (h : (schemeSplit s).isSome = true) :
    (schemeSplit (s ++ t)).isSome = true := by
  unfold schemeSplit at h ⊢
  rw [strDataAppend]
  rcases hc : splitAtColon s.data with _ | ⟨pre, post⟩
  · rw [hc] at h; simp at h
  · rw [hc] at h
    rw [splitAtColon_append t.data s.data pre post hc]
    by_cases hv : validScheme pre = true
    · simp [hv]
    · simp [hv] at h

/-- Absoluteness is preserved by appending to an absolute prefix. -/
theorem isAbsoluteUrl_append (s t : String) (h : isAbsoluteUrl s = true) :
    isAbsoluteUrl (s ++ t) = true :=
  schemeSplit_isSome_append s t h

/-- Every URL the loop resolves against the fixed base is absolute. -/
theorem urljoin_BASE_absolute (u : String) : isAbsoluteUrl (urljoin BASE_URL u) = true := by
  unfold urljoin
  by_cases hu : u = ""
  · rw [if_pos hu]; decide
  · rw [if_neg hu]
    rcases hs : schemeSplit u with _ | ⟨sch, rest⟩
    · simp only [hs]
      by_cases h2 : startsWithSlashSlash u = true
      · rw [if_pos h2]
        exact isAbsoluteUrl_append (baseScheme BASE_URL ++ ":") u (by decide)
      · rw [if_neg h2]
        by_cases h3 : startsWithChar '/' u = true
        · rw [if_pos h3]
          exact isAbsoluteUrl_append (baseOrigin BASE_URL) u (by decide)
        · rw [if_neg h3]
          exact isAbsoluteUrl_append (baseDir BASE_URL) u (by decide)
    · simp only [hs]
      by_cases hb : lowerStr sch = baseScheme BASE_URL
      · rw [if_pos hb]
        by_cases hr : rest = ""
        · rw [if_pos hr]; decide
        · rw [if_neg hr]
          by_cases h2 : startsWithSlashSlash rest = true
          · rw [if_pos h2]
            exact isAbsoluteUrl_append (baseScheme BASE_URL ++ ":") rest (by decide)
          · rw [if_neg h2]
            by_cases h3 : startsWithChar '/' rest = true
            · rw [if_pos h3]
              exact isAbsoluteUrl_append (baseOrigin BASE_URL) rest (by decide)
            · rw [if_neg h3]
              exact isAbsoluteUrl_append (baseDir BASE_URL) rest (by decide)
      · rw [if_neg hb]
        unfold isAbsoluteUrl
        rw [hs]
        rfl

/-! ## Lemmas: association-list dictionary operations -/

/-- A lookup succeeds exactly on the stored keys. -/
theorem alookup_isSome_iff {α : Type} (k : String) (d : List (String × α)) :
    (alookup k d).isSome = true ↔ k ∈ d.map Prod.fst := by
  induction d with
  | nil => simp [alookup]
  | cons p rest ih =>
    rcases p with ⟨k', v⟩
    by_cases hk : k' = k
    · subst hk; simp [alookup]
    · rw [show alookup k ((k', v) :: rest) = alookup k rest from by
        simp [alookup, hk]]
      rw [ih, List.map_cons]
      constructor
      · intro h; exact List.mem_cons_of_mem _ h
      · intro h
        rcases List.mem_cons.mp h with h | h
        · exact absurd h.symm hk
        · exact h

/-- A lookup fails exactly off the stored keys. -/
theorem alookup_eq_none_iff {α : Type} (k : String) (d : List (String × α)) :
    alookup k d = none ↔ k ∉ d.map Prod.fst := by
  constructor
  · intro h hmem
    have hs := (alookup_isSome_iff k d).mpr hmem
    rw [h] at hs
    simp at hs
  · intro h
    cases ho : alookup k d with
    | none => rfl
    | some v => exact absurd ((alookup_isSome_iff k d).mp (by rw [ho]; rfl)) h

/-- Lookup distributes over append, preferring the left list. -/
theorem alookup_append {α : Type} (k : String) (l₁ l₂ : List (String × α)) :
    alookup k (l₁ ++ l₂) =
      match alookup k l₁ with
      | some v => some v
      | none => alookup k l₂ := by
  induction l₁ with
  | nil => simp [alookup]
  | cons p rest ih =>
    rcases p with ⟨k', v⟩
    by_cases hk : k' = k
    · subst hk; simp [alookup]
    · simp only [List.cons_append]
      rw [show alookup k ((k', v) :: (rest ++ l₂)) = alookup k (rest ++ l₂) from by
            simp [alookup, hk],
          show alookup k ((k', v) :: rest) = alookup k rest from by
            simp [alookup, hk]]
      exact ih

/-- Membership test of the dict in terms of its keys. -/
theorem dictMem_iff (k : String) (d : PDict) :
    dictMem k d = true ↔ k ∈ d.map Prod.fst := by
  unfold dictMem
  exact alookup_isSome_iff k d

/-- Inserting a fresh key appends the new entry at the end (insertion
    order of Python dicts). -/
theorem dictSet_of_not_mem (k : String) (v : StubInfo) :
    ∀ d : PDict, k ∉ d.map Prod.fst → dictSet k v d = d ++ [(k, v)] := by
  intro d
  induction d with
  | nil => intro h; rfl
  | cons p rest ih =>
    rcases p with ⟨k', v'⟩
    intro h
    rw [List.map_cons, List.mem_cons, not_or] at h
    obtain ⟨h1, h2⟩ := h
    unfold dictSet
    rw [if_neg (fun hh => h1 hh.symm), ih h2, List.cons_append]

/-- Overwriting the variants of an entry leaves the key sequence
    unchanged. -/
theorem keys_dictUpdateVariants (k : String) (vs : List Variant) :
    ∀ d : PDict, (dictUpdateVariants k vs d).map Prod.fst = d.map Prod.fst := by
  intro d
  induction d with
  | nil => rfl
  | cons p rest ih =>
    rcases p with ⟨k', v'⟩
    by_cases hk : k' = k
    · unfold dictUpdateVariants
      rw [if_pos hk]
      simp
    · unfold dictUpdateVariants
      rw [if_neg hk]
      simp [ih]

/-- Entries stored under a different key are untouched by a variants
    overwrite. -/
theorem mem_dictUpdateVariants_ne (k : String) (vs : List Variant) :
    ∀ (d : PDict) (p : String × StubInfo),
      p ∈ dictUpdateVariants k vs d → p.1 ≠ k → p ∈ d := by
  intro d
  induction d with
  | nil => intro p hp; simp [dictUpdateVariants] at hp
  | cons q rest ih =>
    rcases q with ⟨k', v'⟩
    intro p hp hne
    by_cases hk : k' = k
    · rw [show dictUpdateVariants k vs ((k', v') :: rest) =
            (k', { v' with variants := vs }) :: rest from by
          simp [dictUpdateVariants, hk]] at hp
      rcases List.mem_cons.mp hp with h | h
      · exact absurd (by rw [h, hk] : p.1 = k) hne
      · exact List.mem_cons_of_mem _ h
    · rw [show dictUpdateVariants k vs ((k', v') :: rest) =
            (k', v') :: dictUpdateVariants k vs rest from by
          simp [dictUpdateVariants, hk]] at hp
      rcases List.mem_cons.mp hp with h | h
      · exact h ▸ List.mem_cons_self _ _
      · exact List.mem_cons_of_mem _ (ih p h hne)

/-- With unique keys, the entry stored under the overwritten key ends
    up with exactly the new variants and its other fields intact. -/
theorem mem_dictUpdateVariants_eq (k : String) (vs : List Variant) :
    ∀ (d : PDict) (p : String × StubInfo), (d.map Prod.fst).Nodup →
      p ∈ dictUpdateVariants k vs d → p.1 = k →
      ∃ q ∈ d, q.1 = k ∧ p.2 = { q.2 with variants := vs } := by
  intro d
  induction d with
  | nil => intro p _ hp; simp [dictUpdateVariants] at hp
  | cons q rest ih =>
    rcases q with ⟨k', v'⟩
    intro p hnd hp hpk
    rw [List.map_cons, List.nodup_cons] at hnd
    obtain ⟨hk'notin, hndrest⟩ := hnd
    by_cases hk : k' = k
    · rw [show dictUpdateVariants k vs ((k', v') :: rest) =
            (k', { v' with variants := vs }) :: rest from by
          simp [dictUpdateVariants, hk]] at hp
      rcases List.mem_cons.mp hp with h | h
      · exact ⟨(k', v'), List.mem_cons_self _ _, hk, by rw [h]⟩
      · exact absurd (by
            rw [← hpk]
            exact List.mem_map.mpr ⟨p, h, rfl⟩) (hk ▸ hk'notin)
    · rw [show dictUpdateVariants k vs ((k', v') :: rest) =
            (k', v') :: dictUpdateVariants k vs rest from by
          simp [dictUpdateVariants, hk]] at hp
      rcases List.mem_cons.mp hp with h | h
      · exact absurd (by rw [h] at hpk; exact hpk) hk
      · obtain ⟨q, hq, hq1, hq2⟩ := ih p hndrest h hpk
        exact ⟨q, List.mem_cons_of_mem _ hq, hq1, hq2⟩

/-! ## Lemmas: the loop guards -/

/-- A qualifying element contributes a non-empty identifier and a
    non-empty href. -/
theorem qual_ne {e : ProductElement} {pid href : String}
    (h : qual e = some (pid, href)) : pid ≠ "" ∧ href ≠ "" := by
  rcases e with ⟨fa, fi⟩
  rcases fa with _ | ⟨hr?⟩
  · simp [qual] at h
  · rcases hr? with _ | hr
    · simp [qual] at h
    · simp only [qual] at h
      by_cases hh : hr = ""
      · rw [if_pos hh] at h; simp at h
      · rw [if_neg hh] at h
        rcases hp : extractProductId ⟨some ⟨some hr⟩, fi⟩ with _ | pid'
        · simp [hp] at h
        · simp only [hp] at h
          by_cases hp0 : pid' = ""
          · rw [if_pos hp0] at h; simp at h
          · rw [if_neg hp0] at h
            simp only [Option.some.injEq, Prod.mk.injEq] at h
            obtain ⟨h1, h2⟩ := h
            subst h1; subst h2
            exact ⟨hp0, hh⟩

/-- A skipped element leaves the dict unchanged. -/
theorem processProduct_qual_none (items : ItemsData) (d : PDict) (e : ProductElement)
    (h : qual e = none) : processProduct items d e = d := by
  rcases e with ⟨fa, fi⟩
  rcases fa with _ | ⟨hr?⟩
  · rfl
  · rcases hr? with _ | hr
    · rfl
    · simp only [qual] at h
      simp only [processProduct]
      by_cases hh : hr = ""
      · rw [if_pos hh]
      · rw [if_neg hh] at h ⊢
        rcases hp : extractProductId ⟨some ⟨some hr⟩, fi⟩ with _ | pid'
        · simp [hp]
        · simp only [hp] at h ⊢
          by_cases hp0 : pid' = ""
          · rw [if_pos hp0]
          · rw [if_neg hp0] at h
            simp at h

/-- A qualifying element inserts its stub if new and overwrites the
    stored variants from the embedded data. -/
theorem processProduct_qual_some (items : ItemsData) (d : PDict) (e : ProductElement)
    (pid href : String) (h : qual e = some (pid, href)) :
    processProduct items d e =
      dictUpdateVariants pid (extractProductVariants items (some pid))
        (if dictMem pid d then d
         else dictSet pid ⟨urljoin BASE_URL href, pid, []⟩ d) := by
  rcases e with ⟨fa, fi⟩
  rcases fa with _ | ⟨hr?⟩
  · simp [qual] at h
  · rcases hr? with _ | hr
    · simp [qual] at h
    · simp only [qual] at h
      simp only [processProduct]
      by_cases hh : hr = ""
      · rw [if_pos hh] at h; simp at h
      · rw [if_neg hh] at h ⊢
        rcases hp : extractProductId ⟨some ⟨some hr⟩, fi⟩ with _ | pid'
        · simp [hp] at h
        · simp only [hp] at h ⊢
          by_cases hp0 : pid' = ""
          · rw [if_pos hp0] at h; simp at h
          · rw [if_neg hp0] at h ⊢
            simp only [Option.some.injEq, Prod.mk.injEq] at h
            obtain ⟨h1, h2⟩ := h
            subst h1; subst h2
            rfl

/-- A skipped element contributes nothing to the qualifying pairs. -/
theorem qualList_append_none {l : List ProductElement} {e : ProductElement}
    (h : qual e = none) : qualList (l ++ [e]) = qualList l := by
  simp [qualList, List.filterMap_append, h]

/-- A qualifying element appends its pair to the qualifying pairs. -/
theorem qualList_append_some {l : List ProductElement} {e : ProductElement}
    {pid href : String} (h : qual e = some (pid, href)) :
    qualList (l ++ [e]) = qualList l ++ [(pid, href)] := by
  simp [qualList, List.filterMap_append, h]

/-- The keys of the qualifying pairs are the contributed identifiers. -/
theorem mem_keys_qualList (k : String) (l : List ProductElement) :
    k ∈ (qualList l).map Prod.fst ↔ ∃ e ∈ l, qualPid e = some k := by
  unfold qualList qualPid
  constructor
  · intro h
    obtain ⟨p, hp, hpk⟩ := List.mem_map.mp h
    obtain ⟨e, he, hqe⟩ := List.mem_filterMap.mp hp
    exact ⟨e, he, by rw [hqe]; simp [hpk]⟩
  · rintro ⟨e, he, hqe⟩
    obtain ⟨p, hp, hpk⟩ := Option.map_eq_some'.mp hqe
    exact List.mem_map.mpr ⟨p, List.mem_filterMap.mpr ⟨e, he, hp⟩, hpk⟩

/-- Contribution of a snoc-ed element to the identifier set. -/
theorem hist_snoc_iff (hist : List ProductElement) (e : ProductElement) (k : String) :
    (∃ x ∈ hist ++ [e], qualPid x = some k) ↔
      (∃ x ∈ hist, qualPid x = some k) ∨ qualPid e = some k := by
  constructor
  · rintro ⟨x, hx, hq⟩
    rcases List.mem_append.mp hx with h | h
    · exact Or.inl ⟨x, h, hq⟩
    · right; rw [← List.mem_singleton.mp h]; exact hq
  · rintro (⟨x, hx, hq⟩ | hq)
    · exact ⟨x, List.mem_append_left _ hx, hq⟩
    · exact ⟨e, List.mem_append_right _ (List.mem_singleton.mpr rfl), hq⟩

/-! ## The dict invariant through the loop -/

/-- The empty dict satisfies the invariant for an empty history. -/
theorem dictInv_nil (items : ItemsData) : DictInv items [] [] := by
  refine ⟨List.nodup_nil, ?_, ?_⟩
  · intro p hp; simp at hp
  · intro k; simp [qualList, qualPid]

/-- One loop step preserves the dict invariant. -/
theorem processProduct_inv (items : ItemsData) (hist : List ProductElement) (d : PDict)
    (e : ProductElement) (hI : DictInv items hist d) :
    DictInv items (hist ++ [e]) (processProduct items d e) := by
  obtain ⟨hnd, hent, hkeys⟩ := hI
  rcases hq : qual e with _ | ⟨pid, href⟩
  · rw [processProduct_qual_none items d e hq]
    refine ⟨hnd, ?_, ?_⟩
    · intro p hp
      obtain ⟨h1, h2, ⟨hv, hl, hu⟩, h4⟩ := hent p hp
      exact ⟨h1, h2, ⟨hv, by rw [qualList_append_none hq]; exact hl, hu⟩, h4⟩
    · intro k
      rw [hkeys k, hist_snoc_iff]
      constructor
      · exact Or.inl
      · rintro (hcase | hcase)
        · exact hcase
        · unfold qualPid at hcase
          rw [hq] at hcase
          simp at hcase
  · obtain ⟨hpid0, hhref0⟩ := qual_ne hq
    rw [processProduct_qual_some items d e pid href hq]
    by_cases hmem : dictMem pid d = true
    · rw [if_pos hmem]
      have hpmem : pid ∈ d.map Prod.fst := (dictMem_iff pid d).mp hmem
      have hkeq := keys_dictUpdateVariants pid (extractProductVariants items (some pid)) d
      refine ⟨by rw [hkeq]; exact hnd, ?_, ?_⟩
      · intro p hp
        by_cases hpk : p.1 = pid
        · obtain ⟨q, hqmem, hqk, hq2⟩ := mem_dictUpdateVariants_eq _ _ d p hnd hp hpk
          obtain ⟨h1, h2, ⟨hv, hl, hu⟩, h4⟩ := hent q hqmem
          refine ⟨?_, ?_, ⟨hv, ?_, ?_⟩, ?_⟩
          · rw [hq2, hpk, ← hqk]; exact h1
          · rw [hpk]; exact hpid0
          · rw [qualList_append_some hq, alookup_append, hpk, ← hqk, hl]
          · rw [hq2]; exact hu
          · rw [hq2, hpk]
        · have hpd := mem_dictUpdateVariants_ne _ _ d p hp hpk
          obtain ⟨h1, h2, ⟨hv, hl, hu⟩, h4⟩ := hent p hpd
          refine ⟨h1, h2, ⟨hv, ?_, hu⟩, h4⟩
          rw [qualList_append_some hq, alookup_append, hl]
      · intro k
        rw [hkeq, hkeys k, hist_snoc_iff]
        constructor
        · exact Or.inl
        · rintro (hcase | hcase)
          · exact hcase
          · unfold qualPid at hcase
            rw [hq] at hcase
            simp at hcase
            subst hcase
            exact (hkeys pid).mp hpmem
    · rw [if_neg hmem]
      have hnotin : pid ∉ d.map Prod.fst := fun hc => hmem ((dictMem_iff pid d).mpr hc)
      rw [dictSet_of_not_mem pid _ d hnotin]
      have hkeysnoc :
          (d ++ [(pid, (⟨urljoin BASE_URL href, pid, []⟩ : StubInfo))]).map Prod.fst =
            d.map Prod.fst ++ [pid] := by simp
      have hndsnoc :
          ((d ++ [(pid, (⟨urljoin BASE_URL href, pid, []⟩ : StubInfo))]).map Prod.fst).Nodup := by
        rw [hkeysnoc]
        exact hnd.append (List.nodup_singleton pid) (List.disjoint_singleton.mpr hnotin)
      have hkeq := keys_dictUpdateVariants pid (extractProductVariants items (some pid))
        (d ++ [(pid, ⟨urljoin BASE_URL href, pid, []⟩)])
      have hlooknone : alookup pid (qualList hist) = none := by
        rw [alookup_eq_none_iff]
        intro hc
        exact hnotin ((hkeys pid).mpr ((mem_keys_qualList pid hist).mp hc))
      refine ⟨by rw [hkeq]; exact hndsnoc, ?_, ?_⟩
      · intro p hp
        by_cases hpk : p.1 = pid
        · obtain ⟨q, hqmem, hqk, hq2⟩ := mem_dictUpdateVariants_eq _ _ _ p hndsnoc hp hpk
          rcases List.mem_append.mp hqmem with hqd | hqe
          · exact absurd (by rw [← hqk]; exact List.mem_map.mpr ⟨q, hqd, rfl⟩) hnotin
          · have hqeq : q = (pid, ⟨urljoin BASE_URL href, pid, []⟩) := List.mem_singleton.mp hqe
            refine ⟨?_, ?_, ⟨href, ?_, ?_⟩, ?_⟩
            · rw [hq2, hqeq, hpk]
            · rw [hpk]; exact hpid0
            · rw [qualList_append_some hq, alookup_append, hpk, hlooknone]
              simp [alookup]
            · rw [hq2, hqeq]
            · rw [hq2, hqeq, hpk]
        · have hpd := mem_dictUpdateVariants_ne _ _ _ p hp hpk
          rcases List.mem_append.mp hpd with hpdd | hpde
          · obtain ⟨h1, h2, ⟨hv, hl, hu⟩, h4⟩ := hent p hpdd
            refine ⟨h1, h2, ⟨hv, ?_, hu⟩, h4⟩
            rw [qualList_append_some hq, alookup_append, hl]
          · exact absurd (congrArg Prod.fst (List.mem_singleton.mp hpde)) hpk
      · intro k
        rw [hkeq, hkeysnoc, hist_snoc_iff]
        constructor
        · intro hk
          rcases List.mem_append.mp hk with hk | hk
          · exact Or.inl ((hkeys k).mp hk)
          · right
            unfold qualPid
            rw [hq]
            simp [List.mem_singleton.mp hk]
        · rintro (hcase | hcase)
          · exact List.mem_append_left _ ((hkeys k).mpr hcase)
          · unfold qualPid at hcase
            rw [hq] at hcase
            simp at hcase
            subst hcase
            exact List.mem_append_right _ (List.mem_singleton.mpr rfl)

/-- The fold over the goods elements preserves the dict invariant. -/
theorem foldl_processProduct_inv (items : ItemsData) :
    ∀ (l hist : List ProductElement) (d : PDict), DictInv items hist d →
      DictInv items (hist ++ l) (l.foldl (processProduct items) d) := by
  intro l
  induction l with
  | nil => intro hist d h; rw [List.append_nil]; exact h
  | cons e rest ih =>
    intro hist d h
    rw [List.append_cons hist e rest]
    exact ih (hist ++ [e]) (processProduct items d e) (processProduct_inv items hist d e h)

/-- The dict built by one catalog page satisfies the invariant for the
    page's goods elements. -/
theorem extractStubs_inv (pg : Html) :
    DictInv (extractItemsData (some pg)) pg.goods
      (pg.goods.foldl (processProduct (extractItemsData (some pg))) []) := by
  have h := foldl_processProduct_inv (extractItemsData (some pg)) pg.goods [] []
    (dictInv_nil (extractItemsData (some pg)))
  rw [List.nil_append] at h
  exact h

/-! ## Helper equations for the page pipeline -/

/-- A successful fetch reduces the catalog extraction to the fetched
    page. -/
theorem getProducts_eq (fetch : Fetch) (categoryUrl : String) (page : Int) (pg : Html)
    (hf : fetch (catalogPageUrl categoryUrl page) = some pg) :
    getProductsInfoFromCatalog fetch categoryUrl page = extractStubs pg := by
  unfold getProductsInfoFromCatalog
  rw [hf]

/-- The stub list is the dict values of the goods fold. -/
theorem extractStubs_eq (pg : Html) :
    extractStubs pg =
      (pg.goods.foldl (processProduct (extractItemsData (some pg))) []).map Prod.snd := rfl

/-- The loop guards skip exactly the elements without a truthy href or
    a truthy recovered identifier. -/
theorem qual_none_of_skip (e : ProductElement)
    (h : e.firstA = none ∨
      (∃ a, e.firstA = some a ∧ (a.href = none ∨ a.href = some "")) ∨
      extractProductId e = none ∨ extractProductId e = some "") :
    qual e = none := by
  rcases e with ⟨fa, fi⟩
  rcases fa with _ | ⟨hr?⟩
  · rfl
  · rcases hr? with _ | hr
    · rfl
    · simp only [qual]
      by_cases hhr0 : hr = ""
      · rw [if_pos hhr0]
      · rw [if_neg hhr0]
        rcases hpi : extractProductId ⟨some ⟨some hr⟩, fi⟩ with _ | pid
        · simp [hpi]
        · simp only [hpi]
          rcases h with h | ⟨a', ha', h'⟩ | h | h
          · simp at h
          · have haa : (⟨some hr⟩ : AElem) = a' := Option.some.inj ha'
            subst haa
            rcases h' with h' | h'
            · simp at h'
            · simp at h'
              exact absurd h' hhr0
          · rw [hpi] at h; simp at h
          · rw [hpi] at h
            rw [if_pos (Option.some.inj h)]

/-! ## Claim C2 -/

/-- C2: on every catalog page, every stub returned by
    `getProductsInfoFromCatalog` has a non-empty identifier and an
    absolute URL; and a product element lacking a link `href` (no `a`
    element, no `href` attribute, or an empty one) or lacking a
    recoverable identifier (`extractProductId` returns `none`, or the
    image id attribute becomes empty after stripping its first
    character) leaves the accumulating dict unchanged, so it
    contributes no stub and no partial record. -/
theorem C2_stub_fields (fetch : Fetch) (categoryUrl : String) (page : Int) :
    (∀ stub ∈ getProductsInfoFromCatalog fetch categoryUrl page,
      stub.product_id ≠ "" ∧ isAbsoluteUrl stub.url = true) ∧
    (∀ (items : ItemsData) (d : PDict) (e : ProductElement),
      (e.firstA = none ∨
        (∃ a, e.firstA = some a ∧ (a.href = none ∨ a.href = some "")) ∨
        extractProductId e = none ∨ extractProductId e = some "") →
      processProduct items d e = d) := by
  constructor
  · intro stub hstub
    rcases hf : fetch (catalogPageUrl categoryUrl page) with _ | pg
    · unfold getProductsInfoFromCatalog at hstub
      rw [hf] at hstub
      simp at hstub
    · rw [getProducts_eq fetch categoryUrl page pg hf, extractStubs_eq] at hstub
      obtain ⟨p, hp, hps⟩ := List.mem_map.mp hstub
      obtain ⟨hnd, hent, hkeys⟩ := extractStubs_inv pg
      obtain ⟨h1, h2, ⟨hv, hl, hu⟩, h4⟩ := hent p hp
      constructor
      · rw [← hps, h1]; exact h2
      · rw [← hps, hu]; exact urljoin_BASE_absolute hv
  · intro items d e hskip
    exact processProduct_qual_none items d e (qual_none_of_skip e hskip)

/-- C2 witness: the fixture catalog page yields the `p1` stub with a
    non-empty identifier and an absolute URL, and the href-less fixture
    element contributes nothing. -/
theorem C2_witness :
    ((⟨"https://www.zveromir.ru/shop/p1/", "p1", [egVariant]⟩ : StubInfo).product_id ≠ "" ∧
      isAbsoluteUrl (⟨"https://www.zveromir.ru/shop/p1/", "p1", [egVariant]⟩ : StubInfo).url
        = true) ∧
    processProduct egItems [] egElemNoHref = [] :=
  ⟨(C2_stub_fields egFetchFull "https://www.zveromir.ru/shop/cat/" 1).1 _ (by decide),
   (C2_stub_fields egFetchFull "https://www.zveromir.ru/shop/cat/" 1).2 egItems [] egElemNoHref
     (Or.inr (Or.inl ⟨{ href := none }, rfl, Or.inl rfl⟩))⟩

/-! ## Claim C1 -/

/-- C1: when the same identifier occurs in two (or more) qualifying
    product elements of one catalog page, the returned stub list
    contains that identifier exactly once, and its `variants` field is
    the variant list produced for the later occurrence — within one
    page every occurrence of an identifier produces the same list
    `extractProductVariants itemsData pid`, keyed by the identifier in
    the page's single embedded mapping, and the loop overwrites the
    stored field with it at each occurrence (last write wins). -/
theorem C1_last_write_wins (fetch : Fetch) (categoryUrl : String) (page : Int)
    (pg : Html) (pid : String)
    (hf : fetch (catalogPageUrl categoryUrl page) = some pg)
    (hdup : 2 ≤ pg.goods.countP (fun e => qualPid e == some pid)) :
    ((getProductsInfoFromCatalog fetch categoryUrl page).filter
        (fun s => s.product_id == pid)).length = 1 ∧
    ∀ s ∈ getProductsInfoFromCatalog fetch categoryUrl page, s.product_id = pid →
      s.variants = extractProductVariants (extractItemsData (some pg)) (some pid) := by
  rw [getProducts_eq fetch categoryUrl page pg hf, extractStubs_eq]
  obtain ⟨hnd, hent, hkeys⟩ := extractStubs_inv pg
  have hex : ∃ e ∈ pg.goods, qualPid e = some pid := by
    have hpos : 0 < pg.goods.countP (fun e => qualPid e == some pid) := by omega
    obtain ⟨e, he, hqe⟩ := List.countP_pos_iff.mp hpos
    exact ⟨e, he, by exact beq_iff_eq.mp hqe⟩
  have hpidmem : pid ∈
      (pg.goods.foldl (processProduct (extractItemsData (some pg))) []).map Prod.fst :=
    (hkeys pid).mpr hex
  constructor
  · rw [List.filter_map]
    rw [List.length_map]
    rw [List.filter_congr (fun p hp => by
      obtain ⟨h1, _, _, _⟩ := hent p hp
      show (p.2.product_id == pid) = (p.1 == pid)
      rw [h1])]
    have hswap :
        ((pg.goods.foldl (processProduct (extractItemsData (some pg))) []).filter
            (fun p => p.1 == pid)).length =
          (((pg.goods.foldl (processProduct (extractItemsData (some pg))) []).map
              Prod.fst).filter (fun k => k == pid)).length := by
      rw [List.filter_map, List.length_map]
      rfl
    rw [hswap]
    rw [← List.countP_eq_length_filter, ← List.count_eq_countP]
    exact List.count_eq_one_of_mem hnd hpidmem
  · intro s hs hsid
    obtain ⟨p, hp, hps⟩ := List.mem_map.mp hs
    obtain ⟨h1, h2, _, h4⟩ := hent p hp
    have hp1 : p.1 = pid := by rw [← h1, hps]; exact hsid
    rw [← hps, h4, hp1]

/-- C1 witness: on the fixture page the identifier `p1` occurs in two
    product elements, the output carries it exactly once, and its
    variants are those keyed by `p1` in the embedded data. -/
theorem C1_witness :
    2 ≤ egCatalogPage.goods.countP (fun e => qualPid e == some "p1") ∧
    ((getProductsInfoFromCatalog egFetchFull "https://www.zveromir.ru/shop/cat/" 1).filter
        (fun s => s.product_id == "p1")).length = 1 ∧
    ∀ s ∈ getProductsInfoFromCatalog egFetchFull "https://www.zveromir.ru/shop/cat/" 1,
      s.product_id = "p1" →
      s.variants = extractProductVariants (extractItemsData (some egCatalogPage)) (some "p1") :=
  ⟨by decide,
   (C1_last_write_wins egFetchFull "https://www.zveromir.ru/shop/cat/" 1 egCatalogPage "p1"
     (by decide) (by decide)).1,
   (C1_last_write_wins egFetchFull "https://www.zveromir.ru/shop/cat/" 1 egCatalogPage "p1"
     (by decide) (by decide)).2⟩

/-! ## Claim C9 -/

/-- C9: when the same identifier occurs in two (or more) qualifying
    product elements of one catalog page, the returned stub for that
    identifier keeps the URL resolved from the first occurrence's
    `href` (the head of `qualList`, found by `alookup`): later
    occurrences overwrite only the variants, never the `url` field. -/
theorem C9_url_from_first (fetch : Fetch) (categoryUrl : String) (page : Int)
    (pg : Html) (pid href : String)
    (hf : fetch (catalogPageUrl categoryUrl page) = some pg)
    (hdup : 2 ≤ pg.goods.countP (fun e => qualPid e == some pid))
    (hfirst : alookup pid (qualList pg.goods) = some href) :
    ∀ s ∈ getProductsInfoFromCatalog fetch categoryUrl page,
      s.product_id = pid → s.url = urljoin BASE_URL href := by
  rw [getProducts_eq fetch categoryUrl page pg hf, extractStubs_eq]
  intro s hs hsid
  obtain ⟨p, hp, hps⟩ := List.mem_map.mp hs
  obtain ⟨hnd, hent, hkeys⟩ := extractStubs_inv pg
  obtain ⟨h1, h2, ⟨hv, hl, hu⟩, h4⟩ := hent p hp
  have hp1 : p.1 = pid := by rw [← h1, hps]; exact hsid
  rw [hp1, hfirst] at hl
  have hveq : hv = href := (Option.some.inj hl).symm
  rw [← hps, hu, hveq]

/-- C9 witness: on the fixture page `p1` occurs twice with different
    hrefs, and the returned stub keeps the URL resolved from the first
    occurrence's href `/shop/p1/`. -/
theorem C9_witness :
    alookup "p1" (qualList egCatalogPage.goods) = some "/shop/p1/" ∧
    ∀ s ∈ getProductsInfoFromCatalog egFetchFull "https://www.zveromir.ru/shop/cat/" 1,
      s.product_id = "p1" → s.url = urljoin BASE_URL "/shop/p1/" :=
  ⟨by decide,
   C9_url_from_first egFetchFull "https://www.zveromir.ru/shop/cat/" 1 egCatalogPage
     "p1" "/shop/p1/" (by decide) (by decide) (by decide)⟩

/-! ## Claim C4 -/

/-- C4: when a page's embedded `items_v` blob is present but its JSON
    decode fails, `extractItemsData` returns the empty mapping and
    every stub extracted from that page has an empty variant list.
    The decode error is caught inside `extractItemsData` and the
    embedded functions are total, so no exception escapes
    `getProductsInfoFromCatalog`. -/
theorem C4_malformed_blob (fetch : Fetch) (categoryUrl : String) (page : Int) (pg : Html)
    (hf : fetch (catalogPageUrl categoryUrl page) = some pg)
    (hbad : pg.itemsV = some none) :
    extractItemsData (some pg) = [] ∧
    ∀ s ∈ getProductsInfoFromCatalog fetch categoryUrl page, s.variants = [] := by
  have hempty : extractItemsData (some pg) = [] := by
    simp [extractItemsData, hbad]
  refine ⟨hempty, ?_⟩
  rw [getProducts_eq fetch categoryUrl page pg hf, extractStubs_eq]
  intro s hs
  obtain ⟨p, hp, hps⟩ := List.mem_map.mp hs
  obtain ⟨hnd, hent, hkeys⟩ := extractStubs_inv pg
  obtain ⟨h1, h2, _, h4⟩ := hent p hp
  rw [← hps, h4, hempty]
  simp [extractProductVariants, alookup, h2]

/-- C4 witness: the fixture page with a malformed blob yields the
    empty mapping and stubs with empty variants. -/
theorem C4_witness :
    egBadBlobPage.itemsV = some none ∧
    extractItemsData (some egBadBlobPage) = [] ∧
    ∀ s ∈ getProductsInfoFromCatalog egFetchBad "https://www.zveromir.ru/shop/cat/" 1,
      s.variants = [] :=
  ⟨by decide,
   (C4_malformed_blob egFetchBad "https://www.zveromir.ru/shop/cat/" 1 egBadBlobPage
     (by decide) (by decide)).1,
   (C4_malformed_blob egFetchBad "https://www.zveromir.ru/shop/cat/" 1 egBadBlobPage
     (by decide) (by decide)).2⟩

/-! ## Claim C3 (corrected) -/

/-- C3 counterexample: for a category URL containing no slash and an
    unreachable page, the URL-derived fallback `url.split("/")[-2]`
    raises `IndexError` inside the `try` block, and the `except`
    clause re-evaluates the same expression, so the exception escapes
    to the caller instead of the claimed `(urlDerivedName, 1)` result:
    `analyzeCategoryPage` does not return normally for every input. -/
theorem C3_counterexample :
    analyzeCategoryPage (fun _ => none) "nopath" = Except.error "IndexError" := rfl

/-- C3 amended: for every category URL whose `split("/")` has at least
    two parts (every URL containing a slash — in particular every real
    URL in the configuration), `analyzeCategoryPage` returns normally
    for any fetch outcome, and when the fetch returns absent it
    returns the URL-derived name (second-to-last slash-separated
    segment, underscores replaced by spaces, title-cased) paired with
    page count 1.  For slash-free inputs the fallback expression
    itself raises `IndexError` (see the counterexample). -/
theorem C3_fallback (fetch : Fetch) (url : String)
    (h : 2 ≤ (pySplitSlash url).length) :
    (∃ r, analyzeCategoryPage fetch url = .ok r) ∧
    (fetch url = none →
      ∃ n, urlDerivedName url = .ok n ∧ analyzeCategoryPage fetch url = .ok (n, 1)) := by
  have hname : ∃ n, urlDerivedName url = .ok n := by
    unfold urlDerivedName
    rw [dif_pos h]
    exact ⟨_, rfl⟩
  obtain ⟨n, hn⟩ := hname
  rcases hf : fetch url with _ | pg
  · have hres : analyzeCategoryPage fetch url = .ok (n, 1) := by
      simp only [analyzeCategoryPage, hf, hn, Except.map]
    exact ⟨⟨(n, 1), hres⟩, fun _ => ⟨n, hn, hres⟩⟩
  · have hres : ∃ r, analyzeCategoryPage fetch url = .ok r := by
      rcases hh1 : pg.h1 with _ | t
      · refine ⟨(n, if pg.paginationLabels.isEmpty then (1 : Int)
            else match (pg.paginationLabels.filterMap pyInt).max? with
                 | some m => m
                 | none => 1), ?_⟩
        simp only [analyzeCategoryPage, hf, hh1, hn]
      · refine ⟨(t, if pg.paginationLabels.isEmpty then (1 : Int)
            else match (pg.paginationLabels.filterMap pyInt).max? with
                 | some m => m
                 | none => 1), ?_⟩
        simp only [analyzeCategoryPage, hf, hh1]
    refine ⟨hres, fun hc => ?_⟩
    exact Option.noConfusion hc

/-- C3 witness: a configured category URL with an unreachable page
    degrades to the title-cased URL-derived name and one page. -/
theorem C3_witness :
    2 ≤ (pySplitSlash "https://www.zveromir.ru/shop/suhoy_korm_dlya_koshek/").length ∧
    ((fun _ : String => (none : Option Html))
        "https://www.zveromir.ru/shop/suhoy_korm_dlya_koshek/" = none →
      ∃ n, urlDerivedName "https://www.zveromir.ru/shop/suhoy_korm_dlya_koshek/" = .ok n ∧
        analyzeCategoryPage (fun _ => none)
          "https://www.zveromir.ru/shop/suhoy_korm_dlya_koshek/" = .ok (n, 1)) :=
  ⟨by decide,
   (C3_fallback (fun _ => none) "https://www.zveromir.ru/shop/suhoy_korm_dlya_koshek/"
     (by decide)).2⟩

/-! ## Claim C5 -/

/-- Common evaluation of the pagination branch of
    `analyzeCategoryPage`. -/
theorem pagesCount_eq (labels : List String) :
    (if labels.isEmpty then (1 : Int)
     else
       match (labels.filterMap pyInt).max? with
       | some m => m
       | none => 1) = ((labels.filterMap pyInt).max?).getD 1 := by
  by_cases he : labels.isEmpty
  · rw [if_pos he]
    have hnil : labels = [] := List.isEmpty_iff.mp he
    subst hnil
    rfl
  · rw [if_neg he]
    rcases hm : (labels.filterMap pyInt).max? with _ | m
    · rfl
    · rfl

/-- C5: for every fetched category page, the page count returned by
    `analyzeCategoryPage` is the maximum of the pagination labels that
    parse as integers (`pyInt`), non-parsing labels being ignored, and
    1 when there are no pagination controls or no label parses. -/
theorem C5_page_count (fetch : Fetch) (url : String) (pg : Html) (name : String) (pc : Int)
    (hf : fetch url = some pg)
    (hres : analyzeCategoryPage fetch url = .ok (name, pc)) :
    pc = ((pg.paginationLabels.filterMap pyInt).max?).getD 1 := by
  simp only [analyzeCategoryPage, hf] at hres
  rcases hh1 : pg.h1 with _ | t
  · simp only [hh1] at hres
    rcases hn : urlDerivedName url with e | n
    · simp only [hn, Except.map] at hres
      exact Except.noConfusion hres
    · simp only [hn] at hres
      simp only [Except.ok.injEq, Prod.mk.injEq] at hres
      rw [← hres.2]
      exact pagesCount_eq pg.paginationLabels
  · simp only [hh1] at hres
    simp only [Except.ok.injEq, Prod.mk.injEq] at hres
    rw [← hres.2]
    exact pagesCount_eq pg.paginationLabels

/-- C5 witness: the fixture page's labels `1, 2, 3, …` yield page
    count 3, the non-integer label being ignored. -/
theorem C5_witness :
    egFetchFull "https://www.zveromir.ru/shop/cat/" = some egCatalogPage ∧
    analyzeCategoryPage egFetchFull "https://www.zveromir.ru/shop/cat/" =
      .ok ("Category", 3) ∧
    (3 : Int) = ((egCatalogPage.paginationLabels.filterMap pyInt).max?).getD 1 :=
  ⟨by decide, by decide,
   C5_page_count egFetchFull "https://www.zveromir.ru/shop/cat/" egCatalogPage "Category" 3
     (by decide) (by decide)⟩

/-! ## Claim C6 -/

/-- C6: `extractProductVariants` returns the empty list, raising
    nothing, when the identifier is absent (`None`), falsy (`""`,
    treated as no identifier throughout the program), or missing from
    the embedded mapping; for a truthy identifier present in the
    mapping it returns one variant per raw entry, in source order,
    with `article`, `mass` and `price` taken from the raw fields. -/
theorem C6_variant_lookup (itemsData : ItemsData) (productId : Option String) :
    ((productId = none ∨ productId = some "" ∨
        (∀ pid, productId = some pid → alookup pid itemsData = none)) →
      extractProductVariants itemsData productId = []) ∧
    (∀ pid raws, productId = some pid → pid ≠ "" →
      alookup pid itemsData = some raws →
      extractProductVariants itemsData productId = raws.map mkVariant) := by
  constructor
  · intro h
    rcases productId with _ | pid
    · rfl
    · rcases h with h | h | h
      · simp at h
      · have hp : pid = "" := Option.some.inj h
        simp [extractProductVariants, hp]
      · have hl := h pid rfl
        by_cases hp : pid = "" <;> simp [extractProductVariants, hp, hl]
  · intro pid raws hpid hne hl
    subst hpid
    simp [extractProductVariants, hne, hl]

/-- C6 witness: an identifier absent from the fixture mapping yields
    no variants; the present identifier `p1` yields its one raw entry
    converted in order. -/
theorem C6_witness :
    extractProductVariants egItems (some "zz") = [] ∧
    extractProductVariants egItems (some "p1") =
      [({ art := some "a77", mass := some "2kg", price := some 1290 } : RawVariant)].map
        mkVariant :=
  ⟨(C6_variant_lookup egItems (some "zz")).1
     (Or.inr (Or.inr (by intro pid h; cases Option.some.inj h; decide))),
   (C6_variant_lookup egItems (some "p1")).2 "p1"
     [{ art := some "a77", mass := some "2kg", price := some 1290 }] rfl (by decide)
     (by decide)⟩

/-! ## Claim C7 (corrected) -/

/-- C7 counterexample: a detail page that is fetched successfully and
    has no description element, but whose gallery image element is
    present without a `src` attribute, makes `parseProduct` return no
    record at all (the `AttributeError` from `None.strip()` is caught
    and the function falls through to `None`) — not a record with
    `description` absent and the other fields populated. -/
theorem C7_counterexample :
    (fun _ : String => some egDetailNoSrc) "https://www.zveromir.ru/shop/p1/" =
        some egDetailNoSrc ∧
    egDetailNoSrc.descriptionText = none ∧
    parseProduct (fun _ => some egDetailNoSrc)
      { url := "https://www.zveromir.ru/shop/p1/", product_id := "p1", variants := [] } =
      none :=
  ⟨rfl, rfl, rfl⟩

/-- C7 amended: for every stub whose detail page is fetched
    successfully, has no description element, and whose gallery image
    element is not of the exceptional present-without-`src` shape,
    `parseProduct` returns a record with `description` absent and
    `url`, `name`, `image`, `variants` exactly as on the same page
    carrying a description (name from the first heading, image
    resolved from the gallery element, variants passed through from
    the stub). -/
theorem C7_no_description (fetch : Fetch) (stub : StubInfo) (pg : Html) (d : String)
    (hf : fetch stub.url = some pg)
    (hnd : pg.descriptionText = none)
    (himg : pg.galleryImgSrc ≠ some none) :
    ∃ r r', parseProduct fetch stub = some r ∧
      parseProduct
        (fun u => if u = stub.url then some { pg with descriptionText := some d }
                  else fetch u) stub = some r' ∧
      r.description = none ∧
      r'.description = some (replaceCharStr nbspChar ' ' d) ∧
      r.url = r'.url ∧ r.name = r'.name ∧ r.image = r'.image ∧ r.variants = r'.variants := by
  rcases hgi : pg.galleryImgSrc with _ | src?
  · refine ⟨⟨stub.url, pg.h1, none, none, stub.variants⟩,
      ⟨stub.url, pg.h1, some (replaceCharStr nbspChar ' ' d), none, stub.variants⟩,
      ?_, ?_, rfl, rfl, rfl, rfl, rfl, rfl⟩
    · simp [parseProduct, hf, hnd, hgi]
    · simp [parseProduct, hgi]
  · rcases src? with _ | src
    · exact absurd hgi himg
    · refine ⟨⟨stub.url, pg.h1, none, some (urljoin BASE_URL (pyStrip src)), stub.variants⟩,
        ⟨stub.url, pg.h1, some (replaceCharStr nbspChar ' ' d),
          some (urljoin BASE_URL (pyStrip src)), stub.variants⟩,
        ?_, ?_, rfl, rfl, rfl, rfl, rfl, rfl⟩
      · simp [parseProduct, hf, hnd, hgi]
      · simp [parseProduct, hgi]

/-- C7 witness: the fixture detail page without a description yields a
    record with `description` absent and the other fields as on the
    same page with a description added. -/
theorem C7_witness :
    egFetchFull "https://www.zveromir.ru/shop/p1/" = some egDetailPage ∧
    egDetailPage.descriptionText = none ∧
    ∃ r r',
      parseProduct egFetchFull
        (⟨"https://www.zveromir.ru/shop/p1/", "p1", [egVariant]⟩ : StubInfo) = some r ∧
      parseProduct
        (fun u =>
          if u = (⟨"https://www.zveromir.ru/shop/p1/", "p1", [egVariant]⟩ : StubInfo).url
          then some { egDetailPage with descriptionText := some "a desc" }
          else egFetchFull u)
        (⟨"https://www.zveromir.ru/shop/p1/", "p1", [egVariant]⟩ : StubInfo) = some r' ∧
      r.description = none ∧
      r'.description = some (replaceCharStr nbspChar ' ' "a desc") ∧
      r.url = r'.url ∧ r.name = r'.name ∧ r.image = r'.image ∧ r.variants = r'.variants :=
  ⟨by decide, by decide,
   C7_no_description egFetchFull
     (⟨"https://www.zveromir.ru/shop/p1/", "p1", [egVariant]⟩ : StubInfo) egDetailPage
     "a desc" (by decide) (by decide) (by decide)⟩

/-! ## Claim C8 (corrected) -/

/-- C8 counterexample: `saveToJsonFile` opens the output with mode
    `"w"`, which truncates the previous file before `json.dump`
    streams anything; if the write then fails immediately, the file is
    left empty — neither the previous good content nor the new
    serialization — so the write is not atomic and a sink failure does
    corrupt the previously written good file. -/
theorem C8_counterexample :
    saveToJsonFile "[old]" "[new]" (SinkOutcome.writeFail 0) = "" ∧
    saveToJsonFile "[old]" "[new]" (SinkOutcome.writeFail 0) ≠ "[old]" ∧
    saveToJsonFile "[old]" "[new]" (SinkOutcome.writeFail 0) ≠ "[new]" := by
  refine ⟨rfl, ?_, ?_⟩ <;> decide

/-- C8 amended: the save is sequential, not atomic.  If `open` itself
    fails the previous file is untouched; on full success the file
    holds exactly the new serialization; but a failure during the
    streamed write leaves only the prefix written so far (the previous
    content is already lost to the truncating open).  In every case
    the exception is caught and logged, so the run ends without
    raising. -/
theorem C8_truncate_then_write (prev serialized : String) (oc : SinkOutcome) :
    (oc = .openFail → saveToJsonFile prev serialized oc = prev) ∧
    (oc = .success → saveToJsonFile prev serialized oc = serialized) ∧
    (∀ n, oc = .writeFail n → saveToJsonFile prev serialized oc = ⟨serialized.data.take n⟩) := by
  refine ⟨?_, ?_, ?_⟩
  · rintro rfl; rfl
  · rintro rfl; rfl
  · intro n h
    rw [h]
    rfl

/-- C8 witness: a failed open preserves the previous file; a failure
    after two characters leaves a two-character prefix. -/
theorem C8_witness :
    saveToJsonFile "[old]" "[new]" SinkOutcome.openFail = "[old]" ∧
    saveToJsonFile "[old]" "[new]" (SinkOutcome.writeFail 2) = "[n" :=
  ⟨(C8_truncate_then_write "[old]" "[new]" SinkOutcome.openFail).1 rfl,
   by
    have h := (C8_truncate_then_write "[old]" "[new]" (SinkOutcome.writeFail 2)).2.2 2 rfl
    rw [h]; decide⟩

/-! ## Claim C10 -/

/-- C10: `parseProduct` is total and returns absence rather than
    raising: a fetch failure (the raised `ValueError` is caught) and a
    gallery image element present without a `src` attribute (the
    `AttributeError` from `None.strip()` is caught) both yield no
    record; and everything in a category's `goods` comes from a stub
    whose detail parse succeeded — a product whose parse produced no
    record is omitted entirely by the orchestrator. -/
theorem C10_parse_safety (fetch : Fetch) :
    (∀ stub : StubInfo, fetch stub.url = none → parseProduct fetch stub = none) ∧
    (∀ (stub : StubInfo) (pg : Html), fetch stub.url = some pg →
      pg.galleryImgSrc = some none → parseProduct fetch stub = none) ∧
    (∀ (categoryUrl : String) (cd : CategoryData),
      parseCategory fetch categoryUrl = .ok cd →
      ∀ r ∈ cd.goods, ∃ page stub,
        stub ∈ getProductsInfoFromCatalog fetch categoryUrl page ∧
        parseProduct fetch stub = some r) := by
  refine ⟨?_, ?_, ?_⟩
  · intro stub h
    simp [parseProduct, h]
  · intro stub pg hf hgi
    simp [parseProduct, hf, hgi]
  · intro categoryUrl cd hok r hr
    unfold parseCategory at hok
    rcases ha : analyzeCategoryPage fetch categoryUrl with e | ⟨name, pagesCount⟩
    · rw [ha] at hok
      simp at hok
    · rw [ha] at hok
      simp only [Except.ok.injEq] at hok
      rw [← hok] at hr
      obtain ⟨page, hpage, hrr⟩ := List.mem_flatMap.mp hr
      obtain ⟨stub, hstub, hps⟩ := List.mem_filterMap.mp hrr
      exact ⟨page, stub, hstub, hps⟩

/-- C10 witness: a stub whose URL the fetch cannot serve yields no
    record; a stub whose detail page has a src-less gallery element
    yields no record; and the fixture category's single good comes
    from a stub with a successful parse. -/
theorem C10_witness :
    parseProduct egFetchFull
      { url := "https://nowhere.example/", product_id := "p", variants := [] } = none ∧
    parseProduct egFetchFull
      { url := "https://www.zveromir.ru/nosrc/", product_id := "p", variants := [] } = none ∧
    ∃ page stub,
      stub ∈ getProductsInfoFromCatalog egFetchFull "https://www.zveromir.ru/shop/cat/" page ∧
      parseProduct egFetchFull stub = some egRecord :=
  ⟨(C10_parse_safety egFetchFull).1
     { url := "https://nowhere.example/", product_id := "p", variants := [] } (by decide),
   (C10_parse_safety egFetchFull).2.1
     { url := "https://www.zveromir.ru/nosrc/", product_id := "p", variants := [] }
     egDetailNoSrc (by decide) (by decide),
   (C10_parse_safety egFetchFull).2.2 "https://www.zveromir.ru/shop/cat/" egCatData
     (by decide) egRecord (by decide)⟩
